import Mathlib

/-!
Verification of the pixelspray repository (src/main.rs) against its
natural-language specification.  The Rust program decodes an image, encodes
each pixel sample into a `PX x y HEX` protocol line, shuffles the lines,
packs them into bounded chunks, and streams the chunks over a pool of
worker connections fed by a dispatcher and respawned by a supervisor.

Every definition below is a shallow embedding of a specific piece of
`src/main.rs`; the doc comment of each definition cites the line range it
translates.  Machine integers (`u8`, `u32`, `usize`) are modelled as `Nat`;
the values flowing through the encoder come from `u8` image channels and
stay below 256, and theorems state any bound they need explicitly.
-/

set_option autoImplicit false

namespace Pixelspray

/-- The `Filter` enum of main.rs lines 81-87: `Mask`, `Grey`, `RGBA`. -/
inductive Filter where
  | mask
  | grey
  | rgba
deriving DecidableEq

/-- The subset of the CLI options (struct `Opt`, main.rs lines 27-79) that the
encoding stage reads: the filter mode, the mask color, and the three toggle
flags.  The placement offset `(xoff, yoff)` is computed separately in `run`
(lines 160-176) and is passed to the encoder as explicit arguments, exactly as
the local variables `xoff`/`yoff` are captured by the closure in the source. -/
structure Opt where
  filter : Filter
  color : Nat
  no_offset : Bool
  lossless : Bool
  same_ch_opt : Bool
deriving DecidableEq

/-- One image sample `(x, y, r, g, b, a)` as produced by `image.pixels()`
(main.rs line 183); channels are `u8`, coordinates `u32`. -/
structure Sample where
  x : Nat
  y : Nat
  r : Nat
  g : Nat
  b : Nat
  a : Nat
deriving DecidableEq

/-- One uppercase hex digit, the digit map used by Rust `{:02X}` formatting. -/
def hexDigitU (n : Nat) : Char :=
  if n < 10 then Char.ofNat (48 + n) else Char.ofNat (55 + n)

/-- Rust's `format!("{:02X}", n)` for a `u8` value `n < 256`: exactly two
uppercase hex digits, zero-padded. -/
def hex2 (n : Nat) : String :=
  String.mk [hexDigitU (n / 16), hexDigitU (n % 16)]

/-- The common shape of every draw command produced by the `match` at main.rs
lines 223-229: `PX <x> <y> <hex>\n` with decimal coordinates. -/
def pxLine (x y : Nat) (hex : String) : String :=
  "PX " ++ toString x ++ " " ++ toString y ++ " " ++ hex ++ "\n"

/-- Alpha filtering, main.rs lines 184-189: a sample is kept when
`if opt.lossless { a != 0 } else { a > 0xf }`. -/
def sampleKept (o : Opt) (s : Sample) : Bool :=
  if o.lossless then s.a != 0 else decide (0xf < s.a)

/-- `(r as i32 - g as i32).abs()` from main.rs lines 212-214, as a `Nat`. -/
def chAbsDiff (x y : Nat) : Nat :=
  ((x : Int) - (y : Int)).natAbs

/-- `((r as usize + g as usize + b as usize) / 3) as u8` from main.rs
line 216; the average of three `u8` values is below 256, so the cast is the
identity. -/
def greyAvg (r g b : Nat) : Nat :=
  (r + g + b) / 3

/-- The same-channel optimization, main.rs lines 204-221: starting from
`opt.filter`, when `same_ch_opt` is set and the filter is not `Mask`, the
filter is downgraded to `Grey` either (lossless) when `r == g && g == b`,
keeping `r`, or (lossy) when the maximum pairwise channel distance is at most
4, replacing `r` by the channel average.  Returns the effective filter
together with the effective red value `r` used by the format arms. -/
def effFilter (o : Opt) (s : Sample) : Filter × Nat :=
  if o.same_ch_opt = true ∧ o.filter ≠ Filter.mask then
    if o.lossless = true then
      if s.r = s.g ∧ s.g = s.b then (Filter.grey, s.r) else (o.filter, s.r)
    else
      if max (chAbsDiff s.r s.g) (max (chAbsDiff s.g s.b) (chAbsDiff s.b s.r)) ≤ 4 then
        (Filter.grey, greyAvg s.r s.g s.b)
      else (o.filter, s.r)
  else (o.filter, s.r)

/-- The hex-color part of the emitted command, main.rs lines 200-229.
`ch = color.channels().len()` is 4 for the `Rgba<u8>` pixels that
`DynamicImage::pixels()` yields, and `if ch > 3 && a == 0xff { ch = 3 }`
(lines 200-202) makes `ch == 3` hold exactly when `a == 0xff`; the guard
`Filter::RGBA if ch == 3` (line 227) therefore selects the 6-digit RGB form
exactly for fully opaque samples. -/
def hexFor (o : Opt) (s : Sample) : String :=
  match effFilter o s with
  | (Filter.mask, _) => hex2 o.color
  | (Filter.grey, r) => hex2 r
  | (Filter.rgba, r) =>
    if s.a = 0xff then hex2 r ++ hex2 s.g ++ hex2 s.b
    else hex2 r ++ hex2 s.g ++ hex2 s.b ++ hex2 s.a

/-- The pieces of one encoded command: translated coordinates (main.rs lines
195-198: `if opt.no_offset { x += xoff; y += yoff; }`) and the hex color
part. -/
structure EncParts where
  x : Nat
  y : Nat
  hex : String
deriving DecidableEq

/-- The body of the `.map` closure at main.rs lines 190-230, split into its
coordinate translation and color formatting. -/
def encodeParts (o : Opt) (xoff yoff : Nat) (s : Sample) : EncParts :=
  ⟨if o.no_offset then s.x + xoff else s.x,
   if o.no_offset then s.y + yoff else s.y,
   hexFor o s⟩

/-- The full command line produced for one kept sample. -/
def encodeCmd (o : Opt) (xoff yoff : Nat) (s : Sample) : String :=
  pxLine (encodeParts o xoff yoff s).x (encodeParts o xoff yoff s).y
    (encodeParts o xoff yoff s).hex

/-- The composite encoder: `.filter` then `.map` of main.rs lines 183-231.
Returns `none` when the alpha filter drops the sample (no command produced).
-/
def encodeSample (o : Opt) (xoff yoff : Nat) (s : Sample) : Option String :=
  if sampleKept o s then some (encodeCmd o xoff yoff s) else none

/-! ### Handshake client (main.rs lines 123-145)

The client sends `SIZE`, then reads at most one response line through a
`LinesCodec`; `stream.next().await.and_then(|res| res.ok())` collapses both
end-of-stream and codec errors into `None`, which is the only case that
selects the fallback `(1024, 768)`.  A present line is tokenized by
`split_ascii_whitespace`, the first token is skipped, and the next two
tokens are parsed with `u32::from_str(..).unwrap()` — the `unwrap` panics
(aborts the process) when a token is missing or does not parse.  A panic is
modelled as `none`. -/

/-- Rust `char::is_ascii_whitespace`: space, tab, line feed, form feed,
carriage return — the separator set of `split_ascii_whitespace`. -/
def asciiWs (c : Char) : Bool :=
  c = ' ' || c = '\t' || c = '\n' || c = '\x0c' || c = '\r'

/-- Tokenizer worker: splits `cs` at ASCII whitespace runs, dropping empty
tokens; `cur` holds the characters of the current token in reverse. -/
def wsTokensAux : List Char → List Char → List String
  | [], [] => []
  | [], cur => [String.mk cur.reverse]
  | c :: cs, cur =>
    if asciiWs c then
      match cur with
      | [] => wsTokensAux cs []
      | _ => String.mk cur.reverse :: wsTokensAux cs []
    else wsTokensAux cs (c :: cur)

/-- Rust `s.split_ascii_whitespace()` as a token list. -/
def wsTokens (s : String) : List String :=
  wsTokensAux s.data []

/-- The decimal value of an ASCII digit, `none` for any other character. -/
def digitVal (c : Char) : Option Nat :=
  if '0' ≤ c ∧ c ≤ '9' then some (c.toNat - 48) else none

/-- Rust `u32::from_str`: an optional leading `+`, then a non-empty run of
ASCII digits whose value fits in 32 bits; anything else is a parse error. -/
def u32FromStr (s : String) : Option Nat :=
  let cs := match s.data with
    | '+' :: rest => rest
    | cs => cs
  if cs = [] then none
  else
    match cs.foldl (fun acc c => acc.bind fun n => (digitVal c).map fun d => n * 10 + d)
        (some 0) with
    | some n => if n < 2 ^ 32 then some n else none
    | none => none

/-- The tokens after the skipped first token: `s.split_ascii_whitespace().skip(1)`
(main.rs lines 133-135). -/
def sizeTokens (s : String) : List String :=
  (wsTokens s).drop 1

/-- The handshake result, main.rs lines 128-142.  Input `none` models "no
decodable response line" (stream closed or codec error); only that case
yields the fallback `(1024, 768)`.  For a present line the second and third
whitespace tokens are parsed; each `unwrap` panic (missing token or parse
failure) is modelled as the result `none`. -/
def handshakeSize (res : Option String) : Option (Nat × Nat) :=
  match res with
  | none => some (1024, 768)
  | some s =>
    match sizeTokens s with
    | [] => none
    | t1 :: rest =>
      match u32FromStr t1 with
      | none => none
      | some w =>
        match rest with
        | [] => none
        | t2 :: _ =>
          match u32FromStr t2 with
          | none => none
          | some h => some (w, h)

/-! ### Chunk packer (main.rs lines 235-250)

The shuffled command vector is folded into a vector of string buffers:
starting from one empty buffer, each command is appended to the last buffer
unless that would push its byte length over `chunk_len`, in which case a new
buffer is started; commands are appended whole, so a chunk is exactly the
concatenation of the commands placed in it.  We model a command as its byte
sequence (`List Nat`) and a chunk as the list of commands appended into one
buffer — the flat buffer of the source is `Chunk.join`, and the buffer's
`len()` is `chunkBytes`.  The Lean fold keeps the buffer list reversed (new
chunks are consed at the head where the source pushes at the tail) and
reverses once at the end. -/

/-- An encoded command, as its byte sequence (`px.len()` is its length). -/
abbrev Cmd := List Nat

/-- A chunk, as the ordered list of commands appended into one buffer. -/
abbrev Chunk := List Cmd

/-- The byte length of a chunk's buffer (`chunk.len()` in the source). -/
def chunkBytes (c : Chunk) : Nat :=
  (c.map List.length).sum

/-- One step of the fold at main.rs lines 239-248: append `px` to the
current chunk, or seal it and start a new chunk holding `px` when
`chunk.len() + px.len() > chunk_len`.  The current chunk is the head. -/
def packStep (maxLen : Nat) (buf : List Chunk) (px : Cmd) : List Chunk :=
  match buf with
  | [] => [[px]]
  | chunk :: rest =>
    if maxLen < chunkBytes chunk + px.length then [px] :: chunk :: rest
    else (chunk ++ [px]) :: rest

/-- The configured maximum chunk byte length, main.rs line 235. -/
def chunk_len : Nat := 1420

/-- The whole fold of main.rs lines 238-248, starting from one empty buffer
(`vec![String::with_capacity(chunk_len)]`) and restoring insertion order at
the end. -/
def packChunks (maxLen : Nat) (cmds : List Cmd) : List Chunk :=
  (cmds.foldl (packStep maxLen) [[]]).reverse

/-! ### Dispatcher (main.rs lines 267-289)

The spawned dispatcher loop locks the registry, then for every registered
worker awaits `tx.send(chunk.clone()).await` on that worker's bounded
channel (capacity 4): the send returns an error immediately when the
receiver has been dropped, completes when the channel has buffer room or
the worker eventually receives, and pends forever when the channel is full
and the worker never receives — in which case the loop (still holding the
lock) makes no further progress.  Afterwards every id whose send failed is
removed from the registry.  A worker slot is modelled by whether its
receiver is still alive, how much buffer room its channel has, and whether
the worker is consuming. -/

/-- The dispatcher-visible state of one registered worker. -/
structure WorkerSlot where
  id : Nat
  queueFree : Nat
  receiverAlive : Bool
  consuming : Bool
deriving DecidableEq

/-- Result of one pass of the dispatcher's `for` loop: either the pass
completed (with the ids delivered to and the ids collected into `broken`),
or some send pended forever, freezing the loop at that worker with only the
earlier deliveries done. -/
inductive DispatchOutcome where
  | completed (delivered : List Nat) (broken : List Nat)
  | blocked (delivered : List Nat) (blockedOn : Nat)
deriving DecidableEq

/-- The ids that received a chunk during the pass. -/
def DispatchOutcome.deliveredIds : DispatchOutcome → List Nat
  | .completed d _ => d
  | .blocked d _ => d

/-- One pass of the `for ((&id, tx), chunk) in channels.iter_mut().zip(..)`
loop (main.rs lines 277-284), processing slots in registry order;
`del`/`brk` accumulate delivered and broken ids in reverse. -/
def dispatchPass : List WorkerSlot → List Nat → List Nat → DispatchOutcome
  | [], del, brk => .completed del.reverse brk.reverse
  | w :: ws, del, brk =>
    if w.receiverAlive = false then dispatchPass ws del (w.id :: brk)
    else if 0 < w.queueFree ∨ w.consuming = true then dispatchPass ws (w.id :: del) brk
    else .blocked del.reverse w.id

/-- One full dispatcher iteration: the pass followed by
`for id in broken { channels.remove(&id); }` (main.rs lines 285-287).
`none` when the pass froze on a full channel, removal code never reached. -/
def dispatchCycle (reg : List WorkerSlot) : Option (List WorkerSlot × List Nat) :=
  match dispatchPass reg [] [] with
  | .completed del brk => some (reg.filter fun w => decide (w.id ∉ brk), del)
  | .blocked _ _ => none

/-! ### Supervisor (main.rs lines 292-316)

The select loop receives `id = tasks.next()` of type
`Option<Result<Result<usize, anyhow::Error>, JoinError>>`.  First,
`if let Some(Err(err)) = id { continue; }` skips join errors.  Then the
`match` arms apply in source order — and the wildcard arm
`Some(Ok(Ok(_))) => break` precedes `Some(Ok(Ok(id))) => { respawn }`, so
the respawn arm can never match (rustc reports it as an unreachable
pattern).  The arms are embedded as an ordered pattern list with Rust's
first-match semantics so this shadowing is visible in the model. -/

/-- A completed value of `tasks.next()` in the supervisor loop. -/
inductive TaskOutcome where
  | exhausted
  | joinErr
  | ok (id : Nat)
  | err
deriving DecidableEq

/-- What the supervisor does with one completion: leave the loop (`break`),
go to the next select round (`continue`), or respawn a worker slot. -/
inductive SupervisorAction where
  | halt
  | skip
  | respawn (id : Nat)
deriving DecidableEq

/-- The five patterns of the `match id` at main.rs lines 302-313, in source
order: `None`, `Some(Err(err))`, `Some(Ok(Ok(_)))`, `Some(Ok(Err(err)))`,
`Some(Ok(Ok(id)))`. -/
inductive SupArm where
  | pNone
  | pJoinErr
  | pOkWild
  | pOkErr
  | pOkBind
deriving DecidableEq

/-- Whether an arm's pattern matches an outcome. -/
def SupArm.matches : SupArm → TaskOutcome → Bool
  | .pNone, .exhausted => true
  | .pJoinErr, .joinErr => true
  | .pOkWild, .ok _ => true
  | .pOkErr, .err => true
  | .pOkBind, .ok _ => true
  | _, _ => false

/-- The action of an arm's body: every arm is `break` except the last,
whose body respawns the finished slot (main.rs lines 307-312). -/
def SupArm.action : SupArm → TaskOutcome → SupervisorAction
  | .pOkBind, .ok i => .respawn i
  | _, _ => .halt

/-- Rust `match` semantics: the first arm whose pattern matches fires. -/
def firstArm : List SupArm → TaskOutcome → SupervisorAction
  | [], _ => .halt
  | a :: rest, o => if a.matches o then a.action o else firstArm rest o

/-- The arms of the supervisor's `match`, in source order. -/
def supervisorArms : List SupArm :=
  [.pNone, .pJoinErr, .pOkWild, .pOkErr, .pOkBind]

/-- The supervisor's reaction to one task completion: the guard
`if let Some(Err(err)) = id { continue; }` (main.rs line 299), then the
ordered `match` (lines 302-313). -/
def superviseStep (o : TaskOutcome) : SupervisorAction :=
  match o with
  | .joinErr => .skip
  | _ => firstArm supervisorArms o

/-! ### Worker (fn `client`, main.rs lines 321-349)

The spawned task connects, optionally writes the `OFFSET x y\n` directive,
then loops `while let Some(chunk) = rx.recv().await` writing each received
chunk; `rx.recv()` returning `None` (channel closed) ends the loop and the
task returns `Ok(id)`.  Each failure path attaches a distinct context:
"failed to connect", "failed to send offset", "failed to send chunk".  The
`set_nodelay` outcome is only logged and does not affect control flow, so
it is not modelled.  The task's I/O environment is modelled by whether the
connect succeeds, whether the directive write succeeds, and the sequence of
chunks the channel will deliver before closing, each tagged with whether
its `write_all` succeeds. -/

/-- The error stage a terminated worker reports (the `context` strings at
main.rs lines 326, 336, 342). -/
inductive ClientErrStage where
  | connect
  | sendOffset
  | sendChunk
deriving DecidableEq

/-- Per the spec's taxonomy (section 4.4), a failure while connecting or
while sending the placement directive is a connection-stage error; a chunk
write failure is the transmission stage. -/
def ClientErrStage.isConnectionStage : ClientErrStage → Bool
  | .connect => true
  | .sendOffset => true
  | .sendChunk => false

/-- One write the worker performs on its socket. -/
inductive WireWrite where
  | offsetLine (x y : Nat)
  | chunkData (chunk : String)
deriving DecidableEq

/-- Whether a wire write is the `OFFSET` placement directive. -/
def WireWrite.isOffsetLine : WireWrite → Bool
  | .offsetLine _ _ => true
  | .chunkData _ => false

/-- The I/O fate of one worker task instance: connect success, directive
write success, and for each chunk the channel delivers before closing,
whether its `write_all` succeeds. -/
structure ClientEnv where
  connectOk : Bool
  offsetWriteOk : Bool
  chunkWrites : List (String × Bool)
deriving DecidableEq

/-- The `while let Some(chunk) = rx.recv().await` loop (main.rs lines
339-343): writes chunks until the channel closes (list exhausted, clean
exit) or a write fails ("failed to send chunk").  `tr` accumulates the
trace in reverse. -/
def runClientAux : List (String × Bool) → List WireWrite → List WireWrite × Option ClientErrStage
  | [], tr => (tr.reverse, none)
  | (c, ok) :: rest, tr =>
    if ok then runClientAux rest (.chunkData c :: tr)
    else ((WireWrite.chunkData c :: tr).reverse, some .sendChunk)

/-- The whole worker task body (main.rs lines 324-346): the wire trace it
produced and its result — `Ok(id)` exactly when the channel closed after
all writes succeeded, otherwise the error of the failing stage. -/
def runClient (id : Nat) (offset : Option (Nat × Nat)) (env : ClientEnv) :
    List WireWrite × Except ClientErrStage Nat :=
  if env.connectOk = false then ([], .error .connect)
  else
    match offset with
    | some off =>
      if env.offsetWriteOk then
        let res := runClientAux env.chunkWrites [WireWrite.offsetLine off.1 off.2]
        (res.1, match res.2 with
          | some e => .error e
          | none => .ok id)
      else ([WireWrite.offsetLine off.1 off.2], .error .sendOffset)
    | none =>
      let res := runClientAux env.chunkWrites []
      (res.1, match res.2 with
        | some e => .error e
        | none => .ok id)

/-- The offset argument handed to every spawned client:
`(!opt.no_offset).then_some((xoff, yoff))`, main.rs line 252. -/
def clientOffset (no_off : Bool) (xoff yoff : Nat) : Option (Nat × Nat) :=
  if no_off then none else some (xoff, yoff)

/-- The chunk writes the worker loop performs for a given channel content:
every chunk up to and including the first failing write. -/
def auxEvents : List (String × Bool) → List WireWrite
  | [] => []
  | (c, ok) :: rest => .chunkData c :: (if ok then auxEvents rest else [])

/-! ## Helper lemmas -/

/-- `hex2` always renders exactly two characters. -/
theorem hex2_length (n : Nat) : (hex2 n).length = 2 := rfl

/-- The effective filter is the configured one unless the same-channel
optimization (which requires `same_ch_opt`) downgraded it to `Grey`. -/
theorem effFilter_fst (o : Opt) (s : Sample) :
    (effFilter o s).1 = o.filter ∨
      ((effFilter o s).1 = Filter.grey ∧ o.same_ch_opt = true) := by
  unfold effFilter
  split_ifs with h1 h2 h3 h4 <;> simp_all

/-! ## Claim theorems -/

/-- Claim C1 (code_bug evidence).  The claim says every worker-task
completion leads to a respawn under the same identity and that no
completion terminates the streaming process.  In the code, the wildcard
arm `Some(Ok(Ok(_))) => break` precedes the respawn arm, so a successful
completion (e.g. of worker 0) makes the supervisor `break` out of its loop
— `run` then returns and streaming stops — and no completion whatsoever
can reach the respawn arm: the supervisor either halts or (for a join
error) skips. -/
theorem c1_completion_halts_never_respawns :
    superviseStep (TaskOutcome.ok 0) = SupervisorAction.halt ∧
    ∀ o : TaskOutcome, superviseStep o = SupervisorAction.halt ∨
      superviseStep o = SupervisorAction.skip := by
  refine ⟨rfl, ?_⟩
  intro o
  cases o <;>
    simp [superviseStep, firstArm, supervisorArms, SupArm.matches, SupArm.action]

/-- Claim C2 counterexample.  The claim says a malformed response line
falls back to the 1024×768 canvas; on the response line `HELLO` the code
instead panics (`i.next().unwrap()` on an empty token iterator, main.rs
line 137), modelled as `none` — the fallback value is not produced. -/
theorem c2_counterexample_malformed_line_panics :
    handshakeSize (some "HELLO") = none := rfl

/-- Claim C2 as amended.  The 1024×768 fallback occurs exactly when no
response line is received (stream closed or codec error).  A present line
whose whitespace tokens after the first are fewer than two, or fail to
parse as `u32`, makes the handshake panic (modelled `none`) rather than
fall back. -/
theorem c2_amended_fallback_only_when_no_line :
    handshakeSize none = some (1024, 768) ∧
    (∀ s : String, (sizeTokens s).length < 2 → handshakeSize (some s) = none) ∧
    (∀ (s t1 t2 : String) (rest : List String), sizeTokens s = t1 :: t2 :: rest →
      u32FromStr t1 = none ∨ u32FromStr t2 = none → handshakeSize (some s) = none) := by
  refine ⟨rfl, ?_, ?_⟩
  · intro s h
    match hts : sizeTokens s with
    | [] => simp [handshakeSize, hts]
    | [t1] =>
      match hu : u32FromStr t1 with
      | none => simp [handshakeSize, hts, hu]
      | some w => simp [handshakeSize, hts, hu]
    | t1 :: t2 :: r2 =>
      rw [hts] at h
      simp at h
      omega
  · intro s t1 t2 rest hts hu
    rcases hu with hu | hu
    · simp [handshakeSize, hts, hu]
    · match h1 : u32FromStr t1 with
      | none => simp [handshakeSize, hts, h1]
      | some w => simp [handshakeSize, hts, h1, hu]

/-- Witness for the amended C2: on the response line `SIZE` (no width and
height tokens) the handshake panics. -/
theorem c2_amended_witness : handshakeSize (some "SIZE") = none :=
  c2_amended_fallback_only_when_no_line.2.1 "SIZE" (by decide)

/-- Claim C9.  With `lossless` off, the alpha-keep test is `a > 0xf`, so
every sample with alpha below the threshold 15 produces no command; with
`lossless` on, the test is `a != 0`, so exactly the samples with alpha 0
are dropped. -/
theorem c9_alpha_threshold_drop (o : Opt) (xoff yoff : Nat) (s : Sample) :
    (o.lossless = false → s.a < 15 → encodeSample o xoff yoff s = none) ∧
    (o.lossless = true → (encodeSample o xoff yoff s = none ↔ s.a = 0)) := by
  constructor
  · intro hl ha
    have hna : ¬ (0xf < s.a) := by omega
    simp [encodeSample, sampleKept, hl, hna]
  · intro hl
    by_cases h : s.a = 0 <;> simp [encodeSample, sampleKept, hl, h]

/-- Witness for C9: alpha 10 under the default (non-lossless) options
produces no command, while alpha 10 in lossless mode is kept. -/
theorem c9_witness :
    encodeSample ⟨Filter.rgba, 255, false, false, false⟩ 0 0 ⟨0, 0, 1, 2, 3, 10⟩ = none :=
  (c9_alpha_threshold_drop ⟨Filter.rgba, 255, false, false, false⟩ 0 0
    ⟨0, 0, 1, 2, 3, 10⟩).1 rfl (by decide)

/-- Claim C4 counterexample.  The claim says that in RGBA filter mode every
fully opaque sample yields the 6-hex-digit RGB form.  With the
same-channel optimization enabled (`-c`), the fully opaque sample
`(r,g,b,a) = (100,100,100,255)` is downgraded to the greyscale arm and
yields a 2-hex-digit command instead. -/
theorem c4_counterexample_opaque_grey_downgrade :
    (⟨Filter.rgba, 255, false, false, true⟩ : Opt).filter = Filter.rgba ∧
    (⟨0, 0, 100, 100, 100, 255⟩ : Sample).a = 0xff ∧
    (encodeParts ⟨Filter.rgba, 255, false, false, true⟩ 0 0
        ⟨0, 0, 100, 100, 100, 255⟩).hex.length = 2 := by
  refine ⟨rfl, rfl, rfl⟩

/-- Claim C4 as amended.  In RGBA filter mode the 8-hex-digit RGBA form is
emitted only when alpha is not 0xFF; a fully opaque sample yields the
6-hex-digit RGB form unless the same-channel optimization is enabled and
collapses it to the 2-hex-digit greyscale form. -/
theorem c4_amended_rgba_form (o : Opt) (xoff yoff : Nat) (s : Sample)
    (hf : o.filter = Filter.rgba) :
    ((encodeParts o xoff yoff s).hex.length = 8 → s.a ≠ 0xff) ∧
    (s.a = 0xff → (encodeParts o xoff yoff s).hex.length = 6 ∨
      (o.same_ch_opt = true ∧ (encodeParts o xoff yoff s).hex.length = 2)) := by
  have hx : (encodeParts o xoff yoff s).hex = hexFor o s := rfl
  rw [hx]
  rcases h : effFilter o s with ⟨f, r⟩
  have hcases := effFilter_fst o s
  rw [h, hf] at hcases
  simp only at hcases
  rcases hcases with hcf | ⟨hcf, hsc⟩ <;> subst hcf
  · constructor
    · intro h8
      intro ha
      rw [hexFor, h] at h8
      simp [ha, String.length_append, hex2_length] at h8
    · intro ha
      left
      rw [hexFor, h]
      simp [ha, String.length_append, hex2_length]
  · constructor
    · intro h8
      rw [hexFor, h, hex2_length] at h8
      omega
    · intro ha
      right
      exact ⟨hsc, by rw [hexFor, h, hex2_length]⟩

/-- Witness for the amended C4: a fully opaque sample without the
same-channel optimization yields the 6-digit RGB form. -/
theorem c4_amended_witness :
    (encodeParts ⟨Filter.rgba, 255, false, false, false⟩ 0 0
        ⟨1, 2, 10, 20, 30, 255⟩).hex.length = 6 ∨
      ((⟨Filter.rgba, 255, false, false, false⟩ : Opt).same_ch_opt = true ∧
        (encodeParts ⟨Filter.rgba, 255, false, false, false⟩ 0 0
            ⟨1, 2, 10, 20, 30, 255⟩).hex.length = 2) :=
  (c4_amended_rgba_form ⟨Filter.rgba, 255, false, false, false⟩ 0 0
    ⟨1, 2, 10, 20, 30, 255⟩ rfl).2 rfl

/-- The flat content of the reversed buffer list grows by exactly the
appended command in every `packStep`. -/
theorem packStep_flatten (maxLen : Nat) (buf : List Chunk) (px : Cmd) :
    (packStep maxLen buf px).reverse.flatten = buf.reverse.flatten ++ [px] := by
  match buf with
  | [] => simp [packStep]
  | chunk :: rest =>
    by_cases hc : maxLen < chunkBytes chunk + px.length <;>
      simp [packStep, hc, List.append_assoc]

/-- Folding commands into the buffer appends them, in order, to its flat
content. -/
theorem packFold_flatten (maxLen : Nat) (cmds : List Cmd) :
    ∀ buf : List Chunk,
      (cmds.foldl (packStep maxLen) buf).reverse.flatten = buf.reverse.flatten ++ cmds := by
  induction cmds with
  | nil => intro buf; simp
  | cons px rest ih =>
    intro buf
    rw [List.foldl_cons, ih (packStep maxLen buf px), packStep_flatten]
    simp

/-- Claim C3.  Concatenating all chunks of the resulting ChunkSet in
insertion order reproduces the input command sequence exactly: since a
chunk is the list of whole commands appended into its buffer, this flatten
equation says every command lands in exactly one chunk, in order, with no
loss, duplication, or split. -/
theorem c3_chunkset_concat_exact (cmds : List Cmd) :
    (packChunks chunk_len cmds).flatten = cmds := by
  unfold packChunks
  rw [packFold_flatten]
  simp

/-- The byte length of a chunk after appending one command. -/
theorem chunkBytes_append (c : Chunk) (px : Cmd) :
    chunkBytes (c ++ [px]) = chunkBytes c + px.length := by
  simp [chunkBytes]

/-- The fold keeps every buffer (sealed or current) within `maxLen` bytes,
provided every command fits in `maxLen` on its own. -/
theorem packFold_bytes_le (maxLen : Nat) (cmds : List Cmd)
    (hcmds : ∀ c ∈ cmds, c.length ≤ maxLen) :
    ∀ buf : List Chunk, (∀ ch ∈ buf, chunkBytes ch ≤ maxLen) →
      ∀ ch ∈ cmds.foldl (packStep maxLen) buf, chunkBytes ch ≤ maxLen := by
  induction cmds with
  | nil => intro buf hbuf; simpa using hbuf
  | cons px rest ih =>
    intro buf hbuf
    have hpx : px.length ≤ maxLen := hcmds px (List.mem_cons_self _ _)
    have hrest : ∀ c ∈ rest, c.length ≤ maxLen :=
      fun c hc => hcmds c (List.mem_cons_of_mem _ hc)
    rw [List.foldl_cons]
    refine ih hrest (packStep maxLen buf px) ?_
    intro ch hch
    match buf, hch with
    | [], hch =>
      simp only [packStep, List.mem_singleton] at hch
      subst hch
      simpa [chunkBytes] using hpx
    | chunk :: restb, hch =>
      by_cases hc : maxLen < chunkBytes chunk + px.length
      · simp only [packStep, if_pos hc, List.mem_cons] at hch
        rcases hch with h | h | h
        · subst h; simpa [chunkBytes] using hpx
        · rw [h]; exact hbuf _ (List.mem_cons_self _ _)
        · exact hbuf ch (List.mem_cons_of_mem _ h)
      · simp only [packStep, if_neg hc, List.mem_cons] at hch
        rcases hch with h | h
        · subst h
          rw [chunkBytes_append]
          omega
        · exact hbuf ch (List.mem_cons_of_mem _ h)

/-- Once every buffer holds at least one command, the fold keeps it so. -/
theorem packFold_nonempty (maxLen : Nat) (cmds : List Cmd) :
    ∀ buf : List Chunk, buf ≠ [] → (∀ ch ∈ buf, ch ≠ []) →
      ∀ ch ∈ cmds.foldl (packStep maxLen) buf, ch ≠ [] := by
  induction cmds with
  | nil => intro buf _ hbuf; simpa using hbuf
  | cons px rest ih =>
    intro buf hne hbuf
    rw [List.foldl_cons]
    refine ih (packStep maxLen buf px) ?_ ?_
    · match buf with
      | [] => exact absurd rfl hne
      | chunk :: restb =>
        by_cases hc : maxLen < chunkBytes chunk + px.length <;>
          simp [packStep, hc]
    · intro ch hch
      match buf, hch with
      | [], hch => exact absurd rfl hne
      | chunk :: restb, hch =>
        by_cases hc : maxLen < chunkBytes chunk + px.length
        · simp only [packStep, if_pos hc, List.mem_cons] at hch
          rcases hch with h | h | h
          · subst h; simp
          · rw [h]; exact hbuf _ (List.mem_cons_self _ _)
          · exact hbuf ch (List.mem_cons_of_mem _ h)
        · simp only [packStep, if_neg hc, List.mem_cons] at hch
          rcases hch with h | h
          · subst h; simp
          · exact hbuf ch (List.mem_cons_of_mem _ h)

set_option maxRecDepth 4000 in
/-- Claim C6 counterexample.  The claim's parenthetical says only the final
chunk may be shorter than the 1420-byte maximum.  Two commands of 750
bytes each produce two chunks, and the first (non-final) chunk holds 750
bytes — shorter than the maximum. -/
theorem c6_counterexample_nonfinal_chunk_short :
    packChunks chunk_len [List.replicate 750 0, List.replicate 750 0] =
      [[List.replicate 750 0], [List.replicate 750 0]] ∧
    chunkBytes [List.replicate 750 0] < chunk_len := by
  have h750 : chunkBytes [List.replicate 750 (0 : Nat)] = 750 := by
    simp only [chunkBytes, List.map_cons, List.map_nil, List.sum_cons, List.sum_nil,
      List.length_replicate, Nat.add_zero]
  refine ⟨by decide, ?_⟩
  rw [h750, chunk_len]
  omega

/-- Claim C6 as amended.  If every input command is at most `chunk_len`
(1420) bytes, then no chunk exceeds `chunk_len` bytes and, unless the
input sequence is empty, every chunk holds at least one command; any
chunk — not only the final one — may be shorter than the maximum. -/
theorem c6_amended_chunk_bounds (cmds : List Cmd)
    (hcmds : ∀ c ∈ cmds, c.length ≤ chunk_len) :
    (∀ ch ∈ packChunks chunk_len cmds, chunkBytes ch ≤ chunk_len) ∧
    (cmds ≠ [] → ∀ ch ∈ packChunks chunk_len cmds, ch ≠ []) := by
  constructor
  · intro ch hch
    rw [packChunks, List.mem_reverse] at hch
    refine packFold_bytes_le chunk_len cmds hcmds [[]] ?_ ch hch
    intro c hc
    simp only [List.mem_singleton] at hc
    subst hc
    simp [chunkBytes, chunk_len]
  · intro hne ch hch
    rw [packChunks, List.mem_reverse] at hch
    match cmds, hch with
    | [], _ => exact absurd rfl hne
    | px :: rest, hch =>
      have hpx : px.length ≤ chunk_len := hcmds px (List.mem_cons_self _ _)
      have hstep : packStep chunk_len [[]] px = [[px]] := by
        have : ¬ chunk_len < chunkBytes [] + px.length := by
          simp [chunkBytes]
          omega
        simp [packStep, this]
      rw [List.foldl_cons, hstep] at hch
      refine packFold_nonempty chunk_len rest [[px]] (by simp) ?_ ch hch
      intro c hc
      simp only [List.mem_singleton] at hc
      subst hc
      simp

/-- Witness for the amended C6: two one-byte commands land in one chunk of
two bytes, within the bound. -/
theorem c6_amended_witness :
    chunkBytes [[1], [2]] ≤ chunk_len :=
  (c6_amended_chunk_bounds [[1], [2]] (by decide)).1 [[1], [2]] (by decide)

/-- When a dispatch pass completes, every id already collected as broken
appears in the reported broken list. -/
theorem dispatchPass_broken_acc (ws : List WorkerSlot) :
    ∀ (del brk D B : List Nat), dispatchPass ws del brk = .completed D B →
      ∀ x ∈ brk, x ∈ B := by
  induction ws with
  | nil =>
    intro del brk D B h x hx
    rw [dispatchPass] at h
    cases h
    simpa using hx
  | cons w rest ih =>
    intro del brk D B h x hx
    rw [dispatchPass] at h
    by_cases ha : w.receiverAlive = false
    · rw [if_pos ha] at h
      exact ih del (w.id :: brk) D B h x (List.mem_cons_of_mem _ hx)
    · rw [if_neg ha] at h
      by_cases hs : 0 < w.queueFree ∨ w.consuming = true
      · rw [if_pos hs] at h
        exact ih (w.id :: del) brk D B h x hx
      · rw [if_neg hs] at h
        cases h

/-- When a dispatch pass completes, every registered worker whose receiver
is gone has its id in the reported broken list. -/
theorem dispatchPass_dead_in_broken (ws : List WorkerSlot) :
    ∀ (del brk D B : List Nat), dispatchPass ws del brk = .completed D B →
      ∀ w ∈ ws, w.receiverAlive = false → w.id ∈ B := by
  induction ws with
  | nil =>
    intro del brk D B _ w hw
    exact absurd hw (List.not_mem_nil w)
  | cons v rest ih =>
    intro del brk D B h w hw hdead
    rw [dispatchPass] at h
    rcases List.mem_cons.mp hw with hw | hw
    · subst hw
      rw [if_pos hdead] at h
      exact dispatchPass_broken_acc rest del (w.id :: brk) D B h w.id
        (List.mem_cons_self _ _)
    · by_cases ha : v.receiverAlive = false
      · rw [if_pos ha] at h
        exact ih del (v.id :: brk) D B h w hw hdead
      · rw [if_neg ha] at h
        by_cases hs : 0 < v.queueFree ∨ v.consuming = true
        · rw [if_pos hs] at h
          exact ih (v.id :: del) brk D B h w hw hdead
        · rw [if_neg hs] at h
          cases h

/-- When a dispatch pass completes, every delivered id was either already
accumulated or belongs to a registered worker. -/
theorem dispatchPass_delivered_sub (ws : List WorkerSlot) :
    ∀ (del brk D B : List Nat), dispatchPass ws del brk = .completed D B →
      ∀ x ∈ D, x ∈ del ∨ x ∈ ws.map WorkerSlot.id := by
  induction ws with
  | nil =>
    intro del brk D B h x hx
    rw [dispatchPass] at h
    cases h
    left
    simpa using hx
  | cons w rest ih =>
    intro del brk D B h x hx
    rw [dispatchPass] at h
    by_cases ha : w.receiverAlive = false
    · rw [if_pos ha] at h
      rcases ih del (w.id :: brk) D B h x hx with hm | hm
      · exact Or.inl hm
      · exact Or.inr (by simpa using Or.inr (by simpa using hm))
    · rw [if_neg ha] at h
      by_cases hs : 0 < w.queueFree ∨ w.consuming = true
      · rw [if_pos hs] at h
        rcases ih (w.id :: del) brk D B h x hx with hm | hm
        · rcases List.mem_cons.mp hm with hm | hm
          · exact Or.inr (by simp [hm])
          · exact Or.inl hm
        · exact Or.inr (by simpa using Or.inr (by simpa using hm))
      · rw [if_neg hs] at h
        cases h

/-- Claim C5.  In a dispatcher iteration that completes, a registered
worker whose receiver is gone (its send fails) is removed from the
registry in that same iteration, and its id receives nothing in the next
iteration over the updated registry — it can only be fed again after the
supervisor re-registers that identity. -/
theorem c5_send_failure_deregisters (reg : List WorkerSlot) (w : WorkerSlot)
    (reg' : List WorkerSlot) (del : List Nat)
    (hw : w ∈ reg) (hdead : w.receiverAlive = false)
    (hcycle : dispatchCycle reg = some (reg', del)) :
    w.id ∉ reg'.map WorkerSlot.id ∧
    ∀ (reg2 : List WorkerSlot) (del2 : List Nat),
      dispatchCycle reg' = some (reg2, del2) → w.id ∉ del2 := by
  rw [dispatchCycle] at hcycle
  rcases hpass : dispatchPass reg [] [] with ⟨D, B⟩ | ⟨D, b⟩
  · rw [hpass] at hcycle
    simp only [Option.some.injEq, Prod.mk.injEq] at hcycle
    obtain ⟨hreg', _⟩ := hcycle
    have hwB : w.id ∈ B := dispatchPass_dead_in_broken reg [] [] D B hpass w hw hdead
    have hnot : w.id ∉ reg'.map WorkerSlot.id := by
      intro hmem
      rcases List.mem_map.mp hmem with ⟨u, hu, hid⟩
      rw [← hreg'] at hu
      have := List.of_mem_filter hu
      rw [hid] at this
      simp only [decide_eq_true_eq] at this
      exact this hwB
    refine ⟨hnot, ?_⟩
    intro reg2 del2 h2
    rw [dispatchCycle] at h2
    rcases hpass2 : dispatchPass reg' [] [] with ⟨D2, B2⟩ | ⟨D2, b2⟩
    · rw [hpass2] at h2
      simp only [Option.some.injEq, Prod.mk.injEq] at h2
      obtain ⟨_, hdel2⟩ := h2
      intro hmem
      rw [← hdel2] at hmem
      rcases dispatchPass_delivered_sub reg' [] [] D2 B2 hpass2 w.id hmem with hm | hm
      · simp at hm
      · exact hnot hm
    · rw [hpass2] at h2
      cases h2
  · rw [hpass] at hcycle
    cases hcycle

/-- Witness for C5: with worker 0's receiver gone and worker 1 healthy,
one completed cycle removes id 0 and the next cycle delivers only to 1. -/
theorem c5_witness :
    (0 : Nat) ∉ ([⟨1, 4, true, true⟩] : List WorkerSlot).map WorkerSlot.id ∧
    (0 : Nat) ∉ ([1] : List Nat) :=
  ⟨(c5_send_failure_deregisters [⟨0, 4, false, true⟩, ⟨1, 4, true, true⟩]
      ⟨0, 4, false, true⟩ [⟨1, 4, true, true⟩] [1] (by decide) rfl (by decide)).1,
   (c5_send_failure_deregisters [⟨0, 4, false, true⟩, ⟨1, 4, true, true⟩]
      ⟨0, 4, false, true⟩ [⟨1, 4, true, true⟩] [1] (by decide) rfl (by decide)).2
     [⟨1, 4, true, true⟩] [1] (by decide)⟩

/-- Claim C7 counterexample.  With worker 0 registered first, alive but
not consuming and with a full channel, and worker 1 healthy behind it, the
dispatch pass freezes on worker 0's send: worker 1 receives nothing — the
one unresponsive worker does block the whole system. -/
theorem c7_counterexample_one_unresponsive_blocks_all :
    dispatchPass [⟨0, 0, true, false⟩, ⟨1, 4, true, true⟩] [] [] =
      .blocked [] 0 ∧
    (dispatchPass [⟨0, 0, true, false⟩, ⟨1, 4, true, true⟩] [] []).deliveredIds = [] := by
  exact ⟨rfl, rfl⟩

/-- Claim C7 as amended.  A worker that is alive but not consuming, with a
full channel, freezes the dispatch pass at its position while the registry
lock is held: exactly the workers before it in iteration order have
received their chunk, and no worker after it receives anything. -/
theorem c7_amended_blocked_at_unresponsive (pre post : List WorkerSlot) (bad : WorkerSlot)
    (hpre : ∀ w ∈ pre, w.receiverAlive = true ∧ (0 < w.queueFree ∨ w.consuming = true))
    (halive : bad.receiverAlive = true) (hfull : bad.queueFree = 0)
    (hstuck : bad.consuming = false) :
    dispatchPass (pre ++ bad :: post) [] [] =
      .blocked (pre.map WorkerSlot.id) bad.id := by
  suffices h : ∀ (del brk : List Nat),
      dispatchPass (pre ++ bad :: post) del brk =
        .blocked (del.reverse ++ pre.map WorkerSlot.id) bad.id by
    simpa using h [] []
  induction pre with
  | nil =>
    intro del brk
    rw [List.nil_append, dispatchPass]
    have h1 : ¬ bad.receiverAlive = false := by simp [halive]
    have h2 : ¬ (0 < bad.queueFree ∨ bad.consuming = true) := by
      simp [hfull, hstuck]
    rw [if_neg h1, if_neg h2]
    simp
  | cons p rest ih =>
    intro del brk
    have hp := hpre p (List.mem_cons_self _ _)
    have hrest : ∀ w ∈ rest, w.receiverAlive = true ∧ (0 < w.queueFree ∨ w.consuming = true) :=
      fun w hw => hpre w (List.mem_cons_of_mem _ hw)
    rw [List.cons_append, dispatchPass]
    have h1 : ¬ p.receiverAlive = false := by simp [hp.1]
    rw [if_neg h1, if_pos hp.2]
    rw [ih hrest (p.id :: del) brk]
    simp

/-- Witness for the amended C7: worker 1 before the stuck worker 0 gets its
chunk, worker 2 after it gets nothing. -/
theorem c7_amended_witness :
    dispatchPass [⟨1, 4, true, true⟩, ⟨0, 0, true, false⟩, ⟨2, 4, true, true⟩] [] [] =
      .blocked [1] 0 :=
  c7_amended_blocked_at_unresponsive [⟨1, 4, true, true⟩] [⟨2, 4, true, true⟩]
    ⟨0, 0, true, false⟩ (by decide) rfl rfl rfl

/-- The worker loop's trace is the starting trace followed by its chunk
writes. -/
theorem runClientAux_trace (l : List (String × Bool)) :
    ∀ tr : List WireWrite, (runClientAux l tr).1 = tr.reverse ++ auxEvents l := by
  induction l with
  | nil => intro tr; simp [runClientAux, auxEvents]
  | cons p rest ih =>
    intro tr
    rcases p with ⟨c, ok⟩
    cases ok
    · simp [runClientAux, auxEvents]
    · rw [runClientAux, if_pos rfl, ih]
      simp [auxEvents]

/-- The worker loop never writes an `OFFSET` line. -/
theorem auxEvents_no_offset (l : List (String × Bool)) :
    ∀ e ∈ auxEvents l, e.isOffsetLine = false := by
  induction l with
  | nil => intro e he; exact absurd he (List.not_mem_nil e)
  | cons p rest ih =>
    rcases p with ⟨c, ok⟩
    intro e he
    rw [auxEvents] at he
    rcases List.mem_cons.mp he with he | he
    · subst he; rfl
    · cases ok
      · simp at he
      · exact ih e (by simpa using he)

/-- A channel whose writes all succeed drives the loop to a clean end. -/
theorem runClientAux_all_ok (l : List (String × Bool)) (h : ∀ p ∈ l, p.2 = true) :
    ∀ tr : List WireWrite, (runClientAux l tr).2 = none := by
  induction l with
  | nil => intro tr; rfl
  | cons p rest ih =>
    intro tr
    rcases p with ⟨c, ok⟩
    have hok : ok = true := h (c, ok) (List.mem_cons_self _ _)
    subst hok
    rw [runClientAux, if_pos rfl]
    exact ih (fun p hp => h p (List.mem_cons_of_mem _ hp)) _

/-- The first failing chunk write ends the loop with the transmission-stage
error. -/
theorem runClientAux_first_fail (pre : List (String × Bool)) (c : String)
    (rest : List (String × Bool)) (h : ∀ p ∈ pre, p.2 = true) :
    ∀ tr : List WireWrite,
      (runClientAux (pre ++ (c, false) :: rest) tr).2 = some ClientErrStage.sendChunk := by
  induction pre with
  | nil => intro tr; rfl
  | cons p pr ih =>
    intro tr
    rcases p with ⟨d, ok⟩
    have hok : ok = true := h (d, ok) (List.mem_cons_self _ _)
    subst hok
    rw [List.cons_append, runClientAux, if_pos rfl]
    exact ih (fun p hp => h p (List.mem_cons_of_mem _ hp)) _

/-- Claim C8.  A worker task ends in `Ok(id)` — a normal-success result
carrying its identity, distinct from every failure — exactly when its
channel closes after all writes succeeded; a connect failure or a failure
to write the placement directive yields a connection-stage error; a chunk
write failure yields the transmission-stage error. -/
theorem c8_worker_termination (id : Nat) (off : Option (Nat × Nat)) (env : ClientEnv) :
    (env.connectOk = false → (runClient id off env).2 = .error .connect) ∧
    (env.connectOk = true → env.offsetWriteOk = false →
      ∀ p : Nat × Nat, off = some p → (runClient id off env).2 = .error .sendOffset) ∧
    (env.connectOk = true → (off = none ∨ env.offsetWriteOk = true) →
      (∀ p ∈ env.chunkWrites, p.2 = true) → (runClient id off env).2 = .ok id) ∧
    (env.connectOk = true → (off = none ∨ env.offsetWriteOk = true) →
      ∀ (pre : List (String × Bool)) (c : String) (rest : List (String × Bool)),
        env.chunkWrites = pre ++ (c, false) :: rest → (∀ p ∈ pre, p.2 = true) →
        (runClient id off env).2 = .error .sendChunk) ∧
    ClientErrStage.connect.isConnectionStage = true ∧
    ClientErrStage.sendOffset.isConnectionStage = true ∧
    ClientErrStage.sendChunk.isConnectionStage = false := by
  refine ⟨?_, ?_, ?_, ?_, rfl, rfl, rfl⟩
  · intro hc
    simp [runClient, hc]
  · intro hc hw p hoff
    subst hoff
    simp [runClient, hc, hw]
  · intro hc hoff hall
    rcases hoff with hoff | hoff
    · subst hoff
      rw [runClient, if_neg (by simp [hc])]
      simp [runClientAux_all_ok env.chunkWrites hall]
    · match off with
      | none =>
        rw [runClient, if_neg (by simp [hc])]
        simp [runClientAux_all_ok env.chunkWrites hall]
      | some p =>
        rw [runClient, if_neg (by simp [hc])]
        simp [hoff, runClientAux_all_ok env.chunkWrites hall]
  · intro hc hoff pre c rest hcw hall
    rcases hoff with hoff | hoff
    · subst hoff
      rw [runClient, if_neg (by simp [hc])]
      simp [hcw, runClientAux_first_fail pre c rest hall]
    · match off with
      | none =>
        rw [runClient, if_neg (by simp [hc])]
        simp [hcw, runClientAux_first_fail pre c rest hall]
      | some p =>
        rw [runClient, if_neg (by simp [hc])]
        simp [hoff, hcw, runClientAux_first_fail pre c rest hall]

/-- Witness for C8: a failed connect reports the connect error, and a
clean channel close after one successful write returns `Ok(id)`. -/
theorem c8_witness :
    (runClient 2 none ⟨false, true, []⟩).2 = .error .connect ∧
    (runClient 5 (some (2, 3)) ⟨true, true, [("PX 1 1 FF\n", true)]⟩).2 = .ok 5 :=
  ⟨(c8_worker_termination 2 none ⟨false, true, []⟩).1 rfl,
   (c8_worker_termination 5 (some (2, 3)) ⟨true, true, [("PX 1 1 FF\n", true)]⟩).2.2.1
     rfl (Or.inr rfl) (by decide)⟩

/-- Claim C10.  The placement offset is applied in exactly one of two
mutually exclusive ways, selected by `no_offset`.  Flag set: every command's
coordinates are translated locally by the offset and the workers are
spawned with no offset argument, so no worker ever writes an `OFFSET`
line.  Flag unset: coordinates are emitted untranslated, and a worker that
connects and whose directive write succeeds writes `OFFSET <x> <y>` exactly
once, as its first wire write. -/
theorem c10_offset_exclusive (o : Opt) (xoff yoff : Nat) (s : Sample) (id : Nat)
    (env : ClientEnv) :
    (o.no_offset = true →
      clientOffset o.no_offset xoff yoff = none ∧
      (encodeParts o xoff yoff s).x = s.x + xoff ∧
      (encodeParts o xoff yoff s).y = s.y + yoff ∧
      (runClient id (clientOffset o.no_offset xoff yoff) env).1.filter
        WireWrite.isOffsetLine = []) ∧
    (o.no_offset = false →
      (encodeParts o xoff yoff s).x = s.x ∧
      (encodeParts o xoff yoff s).y = s.y ∧
      (env.connectOk = true → env.offsetWriteOk = true →
        (runClient id (clientOffset o.no_offset xoff yoff) env).1.filter
          WireWrite.isOffsetLine = [WireWrite.offsetLine xoff yoff] ∧
        (runClient id (clientOffset o.no_offset xoff yoff) env).1.head?
          = some (WireWrite.offsetLine xoff yoff))) := by
  have hfilter_aux : ∀ l : List (String × Bool),
      (auxEvents l).filter WireWrite.isOffsetLine = [] := by
    intro l
    rw [List.filter_eq_nil_iff]
    intro e he
    simp [auxEvents_no_offset l e he]
  constructor
  · intro hno
    refine ⟨by simp [clientOffset, hno], by simp [encodeParts, hno],
      by simp [encodeParts, hno], ?_⟩
    rw [show clientOffset o.no_offset xoff yoff = none by simp [clientOffset, hno]]
    by_cases hc : env.connectOk = false
    · simp [runClient, hc]
    · rw [runClient, if_neg hc]
      simp only
      rw [runClientAux_trace]
      simp [hfilter_aux]
  · intro hno
    refine ⟨by simp [encodeParts, hno], by simp [encodeParts, hno], ?_⟩
    intro hc hw
    rw [show clientOffset o.no_offset xoff yoff = some (xoff, yoff) by
      simp [clientOffset, hno]]
    rw [runClient, if_neg (by simp [hc])]
    simp only [hw, if_pos rfl]
    rw [runClientAux_trace]
    constructor
    · simp [List.filter, WireWrite.isOffsetLine, hfilter_aux]
    · simp

/-- Witness for C10: with the flag set the workers get no offset argument,
and with it unset a connected worker's first and only `OFFSET` write is the
directive. -/
theorem c10_witness :
    clientOffset true 5 6 = none ∧
    (runClient 0 (clientOffset false 5 6) ⟨true, true, [("c", true)]⟩).1.filter
      WireWrite.isOffsetLine = [WireWrite.offsetLine 5 6] :=
  ⟨((c10_offset_exclusive ⟨Filter.rgba, 255, true, false, false⟩ 5 6
      ⟨0, 0, 0, 0, 0, 255⟩ 0 ⟨true, true, []⟩).1 rfl).1,
   (((c10_offset_exclusive ⟨Filter.rgba, 255, false, false, false⟩ 5 6
      ⟨0, 0, 0, 0, 0, 255⟩ 0 ⟨true, true, [("c", true)]⟩).2 rfl).2.2 rfl rfl).1⟩

end Pixelspray

